import Mathlib

/-!
# Verification of the spicedb permission-graph expansion engine

Shallow embedding of `internal/graph/expand.go` and the `Expand` RPC path of
`internal/services/acl.go`.  Revisions are modelled as `Nat` (the datastore
revision is a totally ordered token), `uint16` arithmetic is `Nat` with an
explicit wrap at `2^16`, and the datastore plus the dispatcher are the
functional parameters the Go code consumes through interfaces.

The concurrent reducer (`expandSetOperation` in the Go source) is embedded
twice: once denotationally (`expandSetOperationReduce`, the value the loop
computes since it awaits each per-child channel in declared order), and once
operationally (`runSetOperation`), where the completion order of children is
an explicit parameter, so that independence from scheduling is a theorem and
not a modelling assumption.
-/

set_option maxRecDepth 4096

namespace SpiceDB

/-- The sentinel relation `"..."` denoting a terminal user
(`graph.Ellipsis` / `compiler.Ellipsis` in the source). -/
def Ellipsis : String := "..."

/-- `pb.ObjectAndRelation`: `(namespace, object_id, relation)`. -/
structure ObjectAndRelation where
  Namespace : String
  ObjectId : String
  Relation : String
deriving DecidableEq, Repr

/-- A `pb.User` as the engine consumes it: the Go code only ever reads
`user.GetUserset()`, an `ObjectAndRelation`. -/
abbrev User := ObjectAndRelation

/-- `pb.RelationTuple`: the stored tuple `(object#relation, user)`.
The `User` field is the userset ONR (`tpl.User.GetUserset()`). -/
structure RelationTuple where
  objectAndRelation : ObjectAndRelation
  User : User
deriving DecidableEq, Repr

/-- `pb.SetOperationUserset_Operation`. -/
inductive SetOperationUserset_Operation where
  | UNION
  | INTERSECTION
  | EXCLUSION
deriving DecidableEq, Repr

/-- `pb.RelationTupleTreeNode`: a leaf of users or an intermediate
set-operation node.  `Expanded` is the (nilable) ONR label; child slots are
nilable pointers in the proto, hence `Option`. -/
inductive RelationTupleTreeNode where
  | LeafNode (Expanded : Option ObjectAndRelation) (Users : List User)
  | IntermediateNode (Expanded : Option ObjectAndRelation)
      (Operation : SetOperationUserset_Operation)
      (ChildNodes : List (Option RelationTupleTreeNode))
deriving Repr

/-- `graph.ExpansionMode`. -/
inductive ExpansionMode where
  | ShallowExpansion
  | RecursiveExpansion
deriving DecidableEq, Repr

/-- `graph.ExpandRequest`.  `AtRevision` is a `decimal.Decimal` snapshot
token, modelled as `Nat`; `DepthRemaining` is a Go `uint16`, modelled as a
`Nat` kept below `2^16` by explicit wrapping arithmetic. -/
structure ExpandRequest where
  Start : ObjectAndRelation
  AtRevision : Nat
  DepthRemaining : Nat
  ExpansionMode : ExpansionMode
deriving DecidableEq, Repr

/-- Errors produced inside the expander (`NewExpansionFailureErr`,
`NewRequestCanceledErr`, `errAlwaysFailExpand`).  The cause of an expansion
failure is carried as its message string. -/
inductive ExpandError where
  | ExpansionFailure (cause : String)
  | RequestCanceled
  | AlwaysFailExpand
deriving DecidableEq, Repr

/-- `graph.ExpandResult`: a Go struct with two nilable fields, kept as such
(rather than a sum type) because "no partial tree accompanies an error" is a
claim to be proved, not a typing artifact. -/
structure ExpandResult where
  Tree : Option RelationTupleTreeNode
  Err : Option ExpandError
deriving Repr

/-- A Go `panic`, with its message.  The embedding keeps panics distinct
from errors returned through `ExpandResult`. -/
structure GoPanic where
  msg : String
deriving DecidableEq, Repr

/-- `startInclusion` (expand.go lines 13-18). -/
inductive startInclusion where
  | includeStart
  | excludeStart
deriving DecidableEq, Repr

/-- `pb.ComputedUserset_Object`: the object-resolution mode of a computed
userset. -/
inductive ComputedUserset_Object where
  | TUPLE_OBJECT
  | TUPLE_USERSET_OBJECT
deriving DecidableEq, Repr

/-- `pb.ComputedUserset`. -/
structure ComputedUserset where
  Object : ComputedUserset_Object
  Relation : String
deriving DecidableEq, Repr

/-- `pb.TupleToUserset_Tupleset`. -/
structure Tupleset where
  Relation : String
deriving DecidableEq, Repr

/-- `pb.TupleToUserset`. -/
structure TupleToUserset where
  Tupleset : Tupleset
  ComputedUserset : ComputedUserset
deriving DecidableEq, Repr

mutual
/-- `pb.UsersetRewrite`: its `RewriteOperation` oneof.  `Unset` models a
nil/unknown oneof member, which the Go switch sends to `alwaysFailExpand`. -/
inductive UsersetRewrite where
  | Union (so : SetOperation)
  | Intersection (so : SetOperation)
  | Exclusion (so : SetOperation)
  | Unset
deriving Repr

/-- `pb.SetOperation`: a list of children. -/
inductive SetOperation where
  | mk (Child : List SetOperation_Child)
deriving Repr

/-- `pb.SetOperation_Child`: the oneof of child kinds.  `Child_Unset`
models a nil/unknown member, which the Go loop silently skips. -/
inductive SetOperation_Child where
  | Child_XThis
  | Child_ComputedUserset (cu : ComputedUserset)
  | Child_UsersetRewrite (usr : UsersetRewrite)
  | Child_TupleToUserset (ttu : TupleToUserset)
  | Child_Unset
deriving Repr
end

/-- The children list of a `pb.SetOperation`. -/
def SetOperation.Child : SetOperation → List SetOperation_Child
  | .mk c => c

/-- `pb.Relation` (only the fields the expander reads). -/
structure Relation where
  Name : String
  UsersetRewrite : Option UsersetRewrite

/-- The tuple-query surface of `datastore.GraphDatastore` that
`expand.go` uses: `QueryTuples(namespace, revision).WithObjectID(objectId)
.WithRelation(relation).Execute()` followed by draining the iterator and
checking `it.Err()`.  A query either yields the full list of live rows (in
iterator order) or fails; the `Execute` error and the iterator's terminal
`Err()` are both surfaced by the engine as `NewExpansionFailureErr`, so one
`Except` channel captures both. -/
structure GraphDatastore where
  QueryTuples : String → Nat → String → String → Except String (List RelationTuple)

/-- `uint16` decrement: `req.DepthRemaining - 1` on a Go `uint16`
(wraps at zero). -/
def decUint16 (d : Nat) : Nat := (d + 65535) % 65536

/-- The loop of `expandDirect` (expand.go lines 56-64) partitioning the
queried users into `(foundTerminalUsersets, foundNonTerminalUsersets)` in
iteration order: a user whose userset relation is `Ellipsis` is terminal. -/
def partitionUsersets : List RelationTuple → List User × List User
  | [] => ([], [])
  | tpl :: rest =>
    let acc := partitionUsersets rest
    if tpl.User.Relation = Ellipsis then (tpl.User :: acc.1, acc.2)
    else (acc.1, tpl.User :: acc.2)

/-- `setResult` (expand.go lines 222-235): wrap children in an intermediate
node labelled with `start`, no error. -/
def setResult (op : SetOperationUserset_Operation) (start : Option ObjectAndRelation)
    (children : List (Option RelationTupleTreeNode)) : ExpandResult :=
  { Tree := some (.IntermediateNode start op children), Err := none }

/-- The await loop of `expandSetOperation` (expand.go lines 259-269) as the
value it computes: per-child channels are read in declared order, the first
error in that order is returned with a nil tree, otherwise every
`result.Tree` is appended in order. -/
def collectChildren : List ExpandResult → Except ExpandError (List (Option RelationTupleTreeNode))
  | [] => .ok []
  | r :: rest =>
    match r.Err with
    | some e => .error e
    | none => (collectChildren rest).map (r.Tree :: ·)

/-- Denotation of `expandSetOperation` (expand.go lines 237-272) over the
results its child closures deliver: the empty list short-circuits to
`setResult` without spawning, otherwise the await loop runs. -/
def expandSetOperationReduce (op : SetOperationUserset_Operation)
    (start : Option ObjectAndRelation) (results : List ExpandResult) : ExpandResult :=
  match collectChildren results with
  | .error e => { Tree := none, Err := some e }
  | .ok children => setResult op start children

/-- `ExpandAny` (expand.go lines 279-282): union reducer. -/
def ExpandAny (start : Option ObjectAndRelation) (results : List ExpandResult) : ExpandResult :=
  expandSetOperationReduce .UNION start results

/-- `ExpandAll` (expand.go lines 274-277): intersection reducer. -/
def ExpandAll (start : Option ObjectAndRelation) (results : List ExpandResult) : ExpandResult :=
  expandSetOperationReduce .INTERSECTION start results

/-- `ExpandDifference` (expand.go lines 284-287): exclusion reducer. -/
def ExpandDifference (start : Option ObjectAndRelation) (results : List ExpandResult) : ExpandResult :=
  expandSetOperationReduce .EXCLUSION start results

/-- The sub-request built for each non-terminal userset in the recursive arm
of `expandDirect` (expand.go lines 97-102). -/
def directSubRequest (req : ExpandRequest) (nonTerminalUser : User) : ExpandRequest :=
  { Start := nonTerminalUser
    AtRevision := req.AtRevision
    DepthRemaining := decUint16 req.DepthRemaining
    ExpansionMode := req.ExpansionMode }

/-- The post-reducer mutation of `expandDirect` (expand.go lines 111-119):
`result.Tree.GetIntermediateNode().ChildNodes` is extended with the direct
leaf.  `ExpandAny` always produces an intermediate node; on any other shape
the Go code would dereference a nil `GetIntermediateNode()`, so that branch
is unreachable and left as the identity. -/
def appendToIntermediate (result : ExpandResult) (leaf : RelationTupleTreeNode) : ExpandResult :=
  match result.Tree with
  | some (.IntermediateNode s op cs) =>
    { Tree := some (.IntermediateNode s op (cs ++ [some leaf])), Err := result.Err }
  | _ => result

/-- `expandDirect` (expand.go lines 38-122), with the datastore and the
dispatcher (`ce.d.Expand` behind `ce.dispatch`) as functional parameters. -/
def expandDirect (ds : GraphDatastore) (dispatch : ExpandRequest → ExpandResult)
    (req : ExpandRequest) (startBehavior : startInclusion) : ExpandResult :=
  match ds.QueryTuples req.Start.Namespace req.AtRevision req.Start.ObjectId req.Start.Relation with
  | .error e => { Tree := none, Err := some (.ExpansionFailure e) }
  | .ok tuples =>
    let found := partitionUsersets tuples
    let start : Option ObjectAndRelation :=
      if startBehavior = .includeStart then some req.Start else none
    if req.ExpansionMode ≠ .RecursiveExpansion ∨ found.2 = [] then
      { Tree := some (.LeafNode start (found.1 ++ found.2)), Err := none }
    else
      let results := found.2.map (fun u => dispatch (directSubRequest req u))
      let result := ExpandAny (some req.Start) results
      if result.Err ≠ none then result
      else appendToIntermediate result (.LeafNode start (found.1 ++ found.2))

/-- `expandComputedUserset` (expand.go lines 167-195).  The function runs at
closure-construction time; in tuple-userset-object mode with no tuple the Go
code executes `panic("computed userset for tupleset without tuple")`, which
the embedding returns as a `GoPanic`.  On success it yields the sub-request
handed to the dispatcher with the depth decremented by one (`uint16`). -/
def expandComputedUserset (req : ExpandRequest) (cu : ComputedUserset)
    (tpl : Option RelationTuple) : Except GoPanic ExpandRequest :=
  let dispatched : ObjectAndRelation → Except GoPanic ExpandRequest := fun start =>
    .ok { Start := { Namespace := start.Namespace
                     ObjectId := start.ObjectId
                     Relation := cu.Relation }
          AtRevision := req.AtRevision
          DepthRemaining := decUint16 req.DepthRemaining
          ExpansionMode := req.ExpansionMode }
  if cu.Object = .TUPLE_USERSET_OBJECT then
    match tpl with
    | none => .error { msg := "computed userset for tupleset without tuple" }
    | some t => dispatched t.User
  else
    match tpl with
    | some t => dispatched t.objectAndRelation
    | none => dispatched req.Start

/-- `expandTupleToUserset` (expand.go lines 197-220): query the tupleset
relation on the start object, build one computed-userset child per tuple
(tuple context supplied), and reduce with `ExpandAny`. -/
def expandTupleToUserset (ds : GraphDatastore) (dispatch : ExpandRequest → ExpandResult)
    (req : ExpandRequest) (ttu : TupleToUserset) : Except GoPanic ExpandResult :=
  match ds.QueryTuples req.Start.Namespace req.AtRevision req.Start.ObjectId ttu.Tupleset.Relation with
  | .error e => .ok { Tree := none, Err := some (.ExpansionFailure e) }
  | .ok tuples =>
    match tuples.mapM (fun tpl => expandComputedUserset req ttu.ComputedUserset (some tpl)) with
    | .error p => .error p
    | .ok subs => .ok (ExpandAny (some req.Start) (subs.map dispatch))

mutual
/-- `expandUsersetRewrite` (expand.go lines 124-138): dispatch on the outer
set operation; a nil/unknown oneof goes to `alwaysFailExpand`. -/
def expandUsersetRewrite (ds : GraphDatastore) (dispatch : ExpandRequest → ExpandResult)
    (req : ExpandRequest) : UsersetRewrite → Except GoPanic ExpandResult
  | .Union (.mk children) => expandSetOperation ds dispatch req children .UNION
  | .Intersection (.mk children) => expandSetOperation ds dispatch req children .INTERSECTION
  | .Exclusion (.mk children) => expandSetOperation ds dispatch req children .EXCLUSION
  | .Unset => .ok { Tree := none, Err := some .AlwaysFailExpand }
termination_by usr => sizeOf usr

/-- `expandSetOperation` (the method, expand.go lines 140-157): build the
deferred child expansions, then reduce them with the chosen reducer over the
request's own start. -/
def expandSetOperation (ds : GraphDatastore) (dispatch : ExpandRequest → ExpandResult)
    (req : ExpandRequest) (children : List SetOperation_Child)
    (op : SetOperationUserset_Operation) : Except GoPanic ExpandResult :=
  match buildChildResults ds dispatch req children with
  | .error p => .error p
  | .ok results => .ok (expandSetOperationReduce op (some req.Start) results)
termination_by sizeOf children + 1

/-- The child-construction loop of `expandSetOperation` (expand.go lines
142-153), as the list of results the constructed closures deliver, in
declared order.  `_this` expands directly with `excludeStart`; a computed
userset dispatches (or panics, propagating the Go panic); a nested rewrite
recurses with the same request (no depth change); a nil/unknown child is
skipped by the Go switch. -/
def buildChildResults (ds : GraphDatastore) (dispatch : ExpandRequest → ExpandResult)
    (req : ExpandRequest) : List SetOperation_Child → Except GoPanic (List ExpandResult)
  | [] => .ok []
  | .Child_XThis :: rest =>
    (buildChildResults ds dispatch req rest).map (expandDirect ds dispatch req .excludeStart :: ·)
  | .Child_ComputedUserset cu :: rest =>
    match expandComputedUserset req cu none with
    | .error p => .error p
    | .ok sub => (buildChildResults ds dispatch req rest).map (dispatch sub :: ·)
  | .Child_UsersetRewrite usr :: rest =>
    match expandUsersetRewrite ds dispatch req usr with
    | .error p => .error p
    | .ok r => (buildChildResults ds dispatch req rest).map (r :: ·)
  | .Child_TupleToUserset ttu :: rest =>
    match expandTupleToUserset ds dispatch req ttu with
    | .error p => .error p
    | .ok r => (buildChildResults ds dispatch req rest).map (r :: ·)
  | .Child_Unset :: rest => buildChildResults ds dispatch req rest
termination_by l => sizeOf l
end

/-- `concurrentExpander.expand` (expand.go lines 29-36): a relation without
a rewrite expands directly (start included); otherwise the rewrite drives. -/
def expand (ds : GraphDatastore) (dispatch : ExpandRequest → ExpandResult)
    (req : ExpandRequest) (relation : Relation) : Except GoPanic ExpandResult :=
  match relation.UsersetRewrite with
  | none => .ok (expandDirect ds dispatch req .includeStart)
  | some usr => expandUsersetRewrite ds dispatch req usr

/-! ## Operational reducer: channels and completion order

`expandSetOperation` (the function, expand.go lines 237-272) spawns one
goroutine per child, each with a dedicated result channel, and then receives
from the channels in declared order.  The operational model makes the order
in which children deposit their results (the `sends` sequence) explicit, so
"the produced tree does not depend on completion order" is a theorem. -/

/-- The message the reducer receives from child `i`'s dedicated channel: the
first (and, for well-formed runs, only) send tagged with `i`. -/
def firstSendOn (sends : List (Nat × ExpandResult)) (i : Nat) : Option ExpandResult :=
  (sends.find? (fun s => s.1 == i)).map (·.2)

/-- The receive loop of `expandSetOperation` (expand.go lines 259-269), run
against an explicit send sequence: await child `i`'s channel (blocking
forever — `none` — if child `i` never sends), return the first error in
declared order with a nil tree, otherwise collect the trees in order. -/
def runSetOperationFrom (op : SetOperationUserset_Operation)
    (start : Option ObjectAndRelation) (n : Nat) (sends : List (Nat × ExpandResult))
    (i : Nat) (children : List (Option RelationTupleTreeNode)) : Option ExpandResult :=
  if i < n then
    match firstSendOn sends i with
    | none => none
    | some r =>
      match r.Err with
      | some e => some { Tree := none, Err := some e }
      | none => runSetOperationFrom op start n sends (i + 1) (children ++ [r.Tree])
  else some (setResult op start children)
termination_by n - i

/-- One operational run of the reducer over `n` children whose deposits
arrive in the order given by `sends`. -/
def runSetOperation (op : SetOperationUserset_Operation)
    (start : Option ObjectAndRelation) (n : Nat)
    (sends : List (Nat × ExpandResult)) : Option ExpandResult :=
  runSetOperationFrom op start n sends 0 []

/-- Capacity of each per-child result channel the reducer creates:
`make(chan ExpandResult)` (expand.go line 254) is unbuffered. -/
def expandSetOperationChildChanCap : Nat := 0

/-- Capacity of the channel `ExpandOne` creates:
`make(chan ExpandResult, 1)` (expand.go line 291). -/
def ExpandOneChanCap : Nat := 1

/-- A send on a Go channel completes immediately iff a receiver is waiting
or the buffer has room; otherwise the sender blocks. -/
def sendCanComplete (cap queued : Nat) (receiverWaiting : Bool) : Bool :=
  receiverWaiting || decide (queued < cap)

/-! ## The `Expand` RPC path (`internal/services/acl.go`) -/

/-- The error taxonomy `rewriteACLError` (acl.go lines 424-456) distinguishes
via `errors.As`; each constructor carries the `err.Error()` message the
rewrite interpolates.  `errInvalidZookie` is the package-level sentinel
`errors.New("invalid revision requested")` (acl.go line 42). -/
inductive ACLError where
  | errInvalidZookie
  | unknownNamespace (msg : String)
  | unknownRelation (msg : String)
  | preconditionFailed (msg : String)
  | requestCanceled (msg : String)
  | alwaysFail (msg : String)
  | invalidRevision (msg : String)
  | invalidRelation (msg : String)
  | other (msg : String)
deriving DecidableEq, Repr

/-- `err.Error()` for the modelled errors. -/
def ACLError.errString : ACLError → String
  | .errInvalidZookie => "invalid revision requested"
  | .unknownNamespace m => m
  | .unknownRelation m => m
  | .preconditionFailed m => m
  | .requestCanceled m => m
  | .alwaysFail m => m
  | .invalidRevision m => m
  | .invalidRelation m => m
  | .other m => m

/-- gRPC status codes used by the ACL service. -/
inductive GrpcCode where
  | InvalidArgument
  | FailedPrecondition
  | Canceled
  | OutOfRange
  | Internal
deriving DecidableEq, Repr

/-- A gRPC status error (`status.Errorf`). -/
structure GrpcStatus where
  code : GrpcCode
  message : String
deriving DecidableEq, Repr

/-- What `rewriteACLError` returns: a gRPC status, or — in the default
branch — the original error, logged and passed through unrewritten. -/
inductive RewrittenError where
  | status (s : GrpcStatus)
  | raw (e : ACLError)
deriving DecidableEq, Repr

/-- `rewriteACLError` (acl.go lines 424-456).  Note the fallthrough: both
`graph.ErrAlwaysFail` and `datastore.ErrInvalidRevision` land on
`codes.OutOfRange` with an `"invalid zookie: %s"` message. -/
def rewriteACLError : ACLError → RewrittenError
  | .errInvalidZookie =>
    .status { code := .InvalidArgument
              message := "invalid argument: " ++ ACLError.errString .errInvalidZookie }
  | .unknownNamespace m => .status { code := .FailedPrecondition, message := "failed precondition: " ++ m }
  | .unknownRelation m => .status { code := .FailedPrecondition, message := "failed precondition: " ++ m }
  | .preconditionFailed m => .status { code := .FailedPrecondition, message := "failed precondition: " ++ m }
  | .requestCanceled m => .status { code := .Canceled, message := "request canceled: " ++ m }
  | .alwaysFail m => .status { code := .OutOfRange, message := "invalid zookie: " ++ m }
  | .invalidRevision m => .status { code := .OutOfRange, message := "invalid zookie: " ++ m }
  | .invalidRelation m => .status { code := .InvalidArgument, message := m }
  | .other m => .raw (.other m)

/-- `api.ExpandRequest`: the userset to expand plus an optional zookie
(modelled as its opaque token string). -/
structure ApiExpandRequest where
  Userset : ObjectAndRelation
  AtRevision : Option String

/-- `api.ExpandResponse`: the serialised tree plus the revision used
(echoed through `zookie.NewFromRevision`). -/
structure ApiExpandResponse where
  TreeNode : Option RelationTupleTreeNode
  Revision : Nat

/-- The graph request the `Expand` RPC hands to the dispatcher (acl.go
lines 293-298): the expansion mode is the constant
`graph.ShallowExpansion`. -/
def expandRpcDispatchRequest (userset : ObjectAndRelation) (atRevision depth : Nat) :
    ExpandRequest :=
  { Start := userset
    AtRevision := atRevision
    DepthRemaining := depth
    ExpansionMode := .ShallowExpansion }

/-- `aclServer.Expand` (acl.go lines 272-307), with its collaborators as
functional parameters: `validateErr` is `req.Validate()`, `checkNs` is
`nsm.CheckNamespaceAndRelation` (ellipsis disallowed), `pickBestRevision`
and `calculateDepth` are the corresponding methods' outcomes, and
`classifyGraphErr` is how `rewriteACLError`'s `errors.As` chain classifies
the concrete error value the dispatcher returned (those concrete error
types live outside this package). -/
def aclExpand
    (validateErr : Option String)
    (checkNs : String → String → Option ACLError)
    (pickBestRevision : Option String → Except ACLError Nat)
    (calculateDepth : Except String Nat)
    (classifyGraphErr : ExpandError → ACLError)
    (dispatchExpand : ExpandRequest → ExpandResult)
    (req : ApiExpandRequest) : Except RewrittenError ApiExpandResponse :=
  match validateErr with
  | some msg =>
    .error (.status { code := .InvalidArgument, message := "invalid argument: " ++ msg })
  | none =>
  match checkNs req.Userset.Namespace req.Userset.Relation with
  | some e => .error (rewriteACLError e)
  | none =>
  match pickBestRevision req.AtRevision with
  | .error e => .error (rewriteACLError e)
  | .ok atRevision =>
  match calculateDepth with
  | .error msg => .error (.status { code := .InvalidArgument, message := msg })
  | .ok depth =>
    let resp := dispatchExpand (expandRpcDispatchRequest req.Userset atRevision depth)
    match resp.Err with
    | some e => .error (rewriteACLError (classifyGraphErr e))
    | none => .ok { TreeNode := resp.Tree, Revision := atRevision }

/-! ## Concrete fixtures

Small concrete instances (mirroring the repository's own folder/company test
fixture) used to evaluate the embedded code at specific inputs. -/

/-- A concrete start ONR, `folder:company#viewer`. -/
def wONR : ObjectAndRelation := { Namespace := "folder", ObjectId := "company", Relation := "viewer" }

/-- A concrete recursive-mode request at depth 50. -/
def wReqRec : ExpandRequest :=
  { Start := wONR, AtRevision := 3, DepthRemaining := 50, ExpansionMode := .RecursiveExpansion }

/-- Concrete stored tuples: one terminal user and one non-terminal userset. -/
def wTuples : List RelationTuple :=
  [{ objectAndRelation := wONR, User := { Namespace := "user", ObjectId := "legal", Relation := "..." } },
   { objectAndRelation := wONR, User := { Namespace := "folder", ObjectId := "auditors", Relation := "viewer" } }]

/-- A datastore answering every query with `wTuples`. -/
def wDS : GraphDatastore := ⟨fun _ _ _ _ => .ok wTuples⟩

/-- A dispatcher resolving every sub-request to an empty leaf labelled with
its start. -/
def wDispatch : ExpandRequest → ExpandResult :=
  fun q => { Tree := some (.LeafNode (some q.Start) []), Err := none }

end SpiceDB

namespace SpiceDB

/-! ## Helper lemmas about the reducer -/

/-- When every child result carries no error, the await loop collects every
child's tree, in declared order. -/
theorem collectChildren_ok (results : List ExpandResult)
    (h : ∀ r ∈ results, r.Err = none) :
    collectChildren results = .ok (results.map (·.Tree)) := by
  induction results with
  | nil => rfl
  | cons r rest ih =>
    have hr : r.Err = none := h r (by simp)
    simp [collectChildren, hr, ih (fun x hx => h x (by simp [hx])), Except.map]

/-- The await loop fails with the first error in declared order. -/
theorem collectChildren_error (results : List ExpandResult) (e : ExpandError)
    (h : results.findSome? (·.Err) = some e) :
    collectChildren results = .error e := by
  induction results with
  | nil => simp [List.findSome?] at h
  | cons r rest ih =>
    rw [List.findSome?] at h
    cases hr : r.Err with
    | some e2 => rw [hr] at h; cases h; simp [collectChildren, hr]
    | none => rw [hr] at h; simp [collectChildren, hr, ih h, Except.map]

/-- In a send sequence whose channel tags are distinct, the receive on
channel `i` observes the unique value sent there, wherever it sits in the
sequence. -/
theorem find?_key_unique (S : List (Nat × ExpandResult)) (i : Nat) (x : ExpandResult)
    (hn : (S.map Prod.fst).Nodup) (hm : (i, x) ∈ S) :
    S.find? (fun s => s.1 == i) = some (i, x) := by
  induction S with
  | nil => simp at hm
  | cons p rest ih =>
    rw [List.map_cons, List.nodup_cons] at hn
    rcases List.mem_cons.mp hm with heq | hmem
    · subst heq
      simp [List.find?]
    · have hne : ¬(p.1 == i) = true := by
        intro hbeq
        have : p.1 = i := by simpa using hbeq
        exact hn.1 (this ▸ (List.mem_map.mpr ⟨(i, x), hmem, rfl⟩))
      rw [List.find?]
      simp only [hne]
      exact ih hn.2 hmem

/-- If the sends are any permutation of "child `i` deposits result `i`",
then the reducer's receive on channel `i` yields exactly result `i`,
independently of the completion order. -/
theorem firstSendOn_perm (results : List ExpandResult) (sends : List (Nat × ExpandResult))
    (h : sends.Perm results.enum) (i : Nat) (hi : i < results.length) :
    firstSendOn sends i = some (results.get ⟨i, hi⟩) := by
  have hmem : (i, results.get ⟨i, hi⟩) ∈ sends := by
    rw [h.mem_iff, List.mk_mem_enum_iff_getElem?]
    exact List.getElem?_eq_getElem hi
  have hnodup : (sends.map Prod.fst).Nodup := by
    rw [(h.map Prod.fst).nodup_iff, List.enum_map_fst]
    exact List.nodup_range _
  unfold firstSendOn
  rw [find?_key_unique sends i _ hnodup hmem]
  rfl

/-- The operational receive loop, started at child `i` with accumulated
children `acc`, computes the same value as the denotational await loop on
the remaining results. -/
theorem runSetOperationFrom_eq (op : SetOperationUserset_Operation)
    (start : Option ObjectAndRelation) (results : List ExpandResult)
    (sends : List (Nat × ExpandResult))
    (hfs : ∀ i (hi : i < results.length), firstSendOn sends i = some (results.get ⟨i, hi⟩)) :
    ∀ (k i : Nat) (acc : List (Option RelationTupleTreeNode)), results.length ≤ i + k →
    runSetOperationFrom op start results.length sends i acc =
      some (match collectChildren (results.drop i) with
            | .error e => { Tree := none, Err := some e }
            | .ok cs => setResult op start (acc ++ cs)) := by
  intro k
  induction k with
  | zero =>
    intro i acc hik
    have hge : ¬ i < results.length := by omega
    have hdrop : results.drop i = [] := List.drop_eq_nil_of_le (by omega)
    rw [runSetOperationFrom, if_neg hge, hdrop]
    simp [collectChildren]
  | succ k ih =>
    intro i acc hik
    by_cases hi : i < results.length
    · rw [runSetOperationFrom, if_pos hi, hfs i hi]
      have hdrop : results.drop i = results[i] :: results.drop (i + 1) :=
        List.drop_eq_getElem_cons hi
      have hgi : results[i] = results.get ⟨i, hi⟩ := rfl
      rw [hdrop, hgi]
      dsimp only
      cases herr : (results.get ⟨i, hi⟩).Err with
      | some e => simp only [collectChildren, herr]
      | none =>
        simp only [collectChildren, herr]
        rw [ih (i + 1) (acc ++ [(results.get ⟨i, hi⟩).Tree]) (by omega)]
        cases collectChildren (results.drop (i + 1)) with
        | error e => rfl
        | ok cs => simp [Except.map, setResult, List.append_assoc]
    · rw [runSetOperationFrom, if_neg hi]
      have hdrop : results.drop i = [] := List.drop_eq_nil_of_le (by omega)
      rw [hdrop]
      simp [collectChildren]

/-- Any operational run whose sends are a permutation of "each child
deposits its own result once" produces exactly the denotational reduction:
the reducer's outcome is a function of the per-child results alone. -/
theorem runSetOperation_eq_reduce (op : SetOperationUserset_Operation)
    (start : Option ObjectAndRelation) (results : List ExpandResult)
    (sends : List (Nat × ExpandResult)) (h : sends.Perm results.enum) :
    runSetOperation op start results.length sends =
      some (expandSetOperationReduce op start results) := by
  have hrun := runSetOperationFrom_eq op start results sends
    (fun i hi => firstSendOn_perm results sends h i hi) results.length 0 [] (by omega)
  rw [runSetOperation, hrun]
  simp only [List.drop_zero, expandSetOperationReduce]
  cases collectChildren results with
  | error e => rfl
  | ok cs => simp

end SpiceDB

namespace SpiceDB

/-! ## Claims -/

/-- C1: the spec demands that `expand_computed_userset` in
tuple-userset-object mode with `tpl = nil` signals a fatal `AlwaysFail`
error through the result and never panics.  The code instead executes
`panic("computed userset for tupleset without tuple")` (expand.go line 173,
marked `TODO replace this with something else, AlwaysFail?`): at every such
invocation the embedded code yields a Go panic, not an error-carrying
result. -/
theorem expandComputedUserset_nilTuple_panics :
    expandComputedUserset wReqRec { Object := .TUPLE_USERSET_OBJECT, Relation := "member" } none
      = .error { msg := "computed userset for tupleset without tuple" } ∧
    ∀ (req : ExpandRequest) (rel : String),
      expandComputedUserset req { Object := .TUPLE_USERSET_OBJECT, Relation := rel } none
        = .error { msg := "computed userset for tupleset without tuple" } := by
  refine ⟨rfl, fun req rel => ?_⟩
  rw [expandComputedUserset.eq_def]
  simp

/-- C2: a direct expansion in Recursive mode whose query yields at least one
non-terminal user returns `Union(expanded = req.Start)` whose children are
the dispatched expansions of the non-terminal usersets in query-iterator
order — each sub-request at `depth_remaining - 1` via `directSubRequest` —
followed by one trailing `Leaf(label, terminal ++ non_terminal)`. -/
theorem expandDirect_recursive (ds : GraphDatastore) (dispatch : ExpandRequest → ExpandResult)
    (req : ExpandRequest) (sb : startInclusion) (tuples : List RelationTuple)
    (f : User → RelationTupleTreeNode)
    (hq : ds.QueryTuples req.Start.Namespace req.AtRevision req.Start.ObjectId req.Start.Relation
            = .ok tuples)
    (hm : req.ExpansionMode = .RecursiveExpansion)
    (hnt : (partitionUsersets tuples).2 ≠ [])
    (hd : ∀ u ∈ (partitionUsersets tuples).2,
            dispatch (directSubRequest req u) = { Tree := some (f u), Err := none }) :
    expandDirect ds dispatch req sb =
      { Tree := some (.IntermediateNode (some req.Start) .UNION
          ((partitionUsersets tuples).2.map (fun u => some (f u)) ++
           [some (.LeafNode (if sb = .includeStart then some req.Start else none)
                  ((partitionUsersets tuples).1 ++ (partitionUsersets tuples).2))]))
        Err := none } := by
  rw [expandDirect, hq]
  dsimp only
  have hcond : ¬(req.ExpansionMode ≠ .RecursiveExpansion ∨ (partitionUsersets tuples).2 = []) := by
    simp [hm, hnt]
  rw [if_neg hcond]
  have hmap : (partitionUsersets tuples).2.map (fun u => dispatch (directSubRequest req u)) =
      (partitionUsersets tuples).2.map (fun u => { Tree := some (f u), Err := none }) :=
    List.map_congr_left hd
  rw [ExpandAny, hmap, expandSetOperationReduce,
    collectChildren_ok _ (by intro r hr; rw [List.mem_map] at hr; obtain ⟨u, _, rfl⟩ := hr; rfl)]
  simp [setResult, appendToIntermediate, List.map_map, Function.comp]

/-- C2 witness: the recursive expansion of `folder:company#viewer` over the
concrete fixture, evaluated. -/
theorem expandDirect_recursive_witness :
    expandDirect wDS wDispatch wReqRec .includeStart =
      { Tree := some (.IntermediateNode (some wONR) .UNION
          [some (.LeafNode (some { Namespace := "folder", ObjectId := "auditors", Relation := "viewer" }) []),
           some (.LeafNode (some wONR)
             [{ Namespace := "user", ObjectId := "legal", Relation := "..." },
              { Namespace := "folder", ObjectId := "auditors", Relation := "viewer" }])])
        Err := none } :=
  expandDirect_recursive wDS wDispatch wReqRec .includeStart wTuples
    (fun u => .LeafNode (some u) []) rfl rfl (by decide) (fun u _ => rfl)

/-- C3: a direct expansion in Shallow mode, or one finding no non-terminal
users, returns a single `Leaf` whose users are the terminals followed by the
non-terminals, labelled `req.Start` under `includeStart` and `nil` under
`excludeStart`; and the `_this` arm inside a rewrite is exactly the
`excludeStart` call. -/
theorem expandDirect_shallow_leaf :
    (∀ (ds : GraphDatastore) (dispatch : ExpandRequest → ExpandResult)
       (req : ExpandRequest) (sb : startInclusion) (tuples : List RelationTuple),
      ds.QueryTuples req.Start.Namespace req.AtRevision req.Start.ObjectId req.Start.Relation
          = .ok tuples →
      (req.ExpansionMode ≠ .RecursiveExpansion ∨ (partitionUsersets tuples).2 = []) →
      expandDirect ds dispatch req sb =
        { Tree := some (.LeafNode (if sb = .includeStart then some req.Start else none)
                    ((partitionUsersets tuples).1 ++ (partitionUsersets tuples).2))
          Err := none }) ∧
    (∀ (ds : GraphDatastore) (dispatch : ExpandRequest → ExpandResult)
       (req : ExpandRequest) (rest : List SetOperation_Child),
      buildChildResults ds dispatch req (.Child_XThis :: rest) =
        (buildChildResults ds dispatch req rest).map
          (expandDirect ds dispatch req .excludeStart :: ·)) := by
  constructor
  · intro ds dispatch req sb tuples hq hcond
    rw [expandDirect, hq]
    dsimp only
    rw [if_pos hcond]
  · intro ds dispatch req rest
    rw [buildChildResults]

/-- C3 witness: the shallow `_this`-style expansion of the concrete fixture,
evaluated: unlabelled leaf, terminals before non-terminals. -/
theorem expandDirect_shallow_leaf_witness :
    expandDirect wDS wDispatch
        { Start := wONR, AtRevision := 3, DepthRemaining := 50, ExpansionMode := .ShallowExpansion }
        .excludeStart =
      { Tree := some (.LeafNode none
          [{ Namespace := "user", ObjectId := "legal", Relation := "..." },
           { Namespace := "folder", ObjectId := "auditors", Relation := "viewer" }])
        Err := none } :=
  expandDirect_shallow_leaf.1 wDS wDispatch
    { Start := wONR, AtRevision := 3, DepthRemaining := 50, ExpansionMode := .ShallowExpansion }
    .excludeStart wTuples rfl (by decide)

/-- C4: the reducer awaits its children in declared (lexical) order, and the
first child error in that order becomes the reducer's error with the tree
absent — both for the denotational await loop and for every operational run,
whatever the completion order of the children. -/
theorem reducer_first_error_wins (op : SetOperationUserset_Operation)
    (start : Option ObjectAndRelation) (results : List ExpandResult) (e : ExpandError)
    (h : results.findSome? (·.Err) = some e) :
    expandSetOperationReduce op start results = { Tree := none, Err := some e } ∧
    ∀ sends, sends.Perm results.enum →
      runSetOperation op start results.length sends = some { Tree := none, Err := some e } := by
  have hred : expandSetOperationReduce op start results = { Tree := none, Err := some e } := by
    rw [expandSetOperationReduce, collectChildren_error results e h]
  exact ⟨hred, fun sends hp => by rw [runSetOperation_eq_reduce op start results sends hp, hred]⟩

/-- C4 witness: of two child errors the lexically first one wins, and the
succeeding first child contributes no partial tree. -/
theorem reducer_first_error_wins_witness :
    expandSetOperationReduce .UNION none
      [{ Tree := some (.LeafNode none []), Err := none },
       { Tree := none, Err := some .RequestCanceled },
       { Tree := none, Err := some (.ExpansionFailure "later") }] =
      { Tree := none, Err := some .RequestCanceled } :=
  (reducer_first_error_wins .UNION none
    [{ Tree := some (.LeafNode none []), Err := none },
     { Tree := none, Err := some .RequestCanceled },
     { Tree := none, Err := some (.ExpansionFailure "later") }] .RequestCanceled rfl).1

/-- C5: depth is decremented by exactly one (as a `uint16`) on every
dispatcher hop — each computed-userset redirect and each non-terminal
dereference of recursive direct expansion — while a nested userset-rewrite
child is expanded with the request passed through unchanged. -/
theorem depth_decrement_per_hop :
    (∀ (req : ExpandRequest) (cu : ComputedUserset) (tpl : Option RelationTuple)
       (sub : ExpandRequest), expandComputedUserset req cu tpl = .ok sub →
        sub.DepthRemaining = decUint16 req.DepthRemaining) ∧
    (∀ (req : ExpandRequest) (u : User),
        (directSubRequest req u).DepthRemaining = decUint16 req.DepthRemaining) ∧
    (∀ d : Nat, 1 ≤ d → d ≤ 65535 → decUint16 d = d - 1) ∧
    (∀ (ds : GraphDatastore) (dispatch : ExpandRequest → ExpandResult)
       (req : ExpandRequest) (usr : UsersetRewrite) (rest : List SetOperation_Child),
      buildChildResults ds dispatch req (.Child_UsersetRewrite usr :: rest) =
        match expandUsersetRewrite ds dispatch req usr with
        | .error p => .error p
        | .ok r => (buildChildResults ds dispatch req rest).map (r :: ·)) := by
  refine ⟨?_, fun req u => rfl, ?_, ?_⟩
  · intro req cu tpl sub h
    rw [expandComputedUserset.eq_def] at h
    dsimp only at h
    by_cases hcu : cu.Object = .TUPLE_USERSET_OBJECT
    · rw [if_pos hcu] at h
      cases tpl with
      | none => exact absurd h (by simp)
      | some t => cases h; rfl
    · rw [if_neg hcu] at h
      cases tpl with
      | none => cases h; rfl
      | some t => cases h; rfl
  · intro d h1 h2
    unfold decUint16
    omega
  · intro ds dispatch req usr rest
    rw [buildChildResults]

/-- C5 witness: at depth 50 the recursive direct sub-request sits at depth
`decUint16 50`, which is 49. -/
theorem depth_decrement_per_hop_witness :
    (directSubRequest wReqRec wONR).DepthRemaining = decUint16 50 ∧ decUint16 50 = 49 := by
  constructor
  · exact depth_decrement_per_hop.2.1 wReqRec wONR
  · exact depth_decrement_per_hop.2.2.1 50 (by decide) (by decide)

/-- C6: reducing an empty child list yields `Intermediate(start, op, [])`
with no error — denotationally, and operationally for every send sequence
(in particular the empty one: no child needs to run). -/
theorem reducer_empty_children (op : SetOperationUserset_Operation)
    (start : Option ObjectAndRelation) :
    expandSetOperationReduce op start [] = setResult op start [] ∧
    (expandSetOperationReduce op start []).Err = none ∧
    (expandSetOperationReduce op start []).Tree =
      some (.IntermediateNode start op []) ∧
    ∀ sends, runSetOperation op start 0 sends = some (setResult op start []) := by
  refine ⟨rfl, rfl, rfl, fun sends => ?_⟩
  rw [runSetOperation, runSetOperationFrom]
  simp

/-- C7 counterexample: the claim that every channel used to receive a child
result in a reducer admits one buffered send per child is false — the
per-child channels of `expandSetOperation` are created unbuffered
(`make(chan ExpandResult)`, capacity 0), so a send with no receiver waiting
cannot complete. -/
theorem reducer_child_channels_unbuffered :
    expandSetOperationChildChanCap ≠ 1 ∧
    sendCanComplete expandSetOperationChildChanCap 0 false = false := by decide

/-- C7 amended: only `ExpandOne`'s channel has capacity one; the reducer's
per-child channels are unbuffered, so after an early reducer return a
still-completing child blocks on its send instead of depositing its result
and terminating. -/
theorem reducer_channel_capacities :
    ExpandOneChanCap = 1 ∧ expandSetOperationChildChanCap = 0 ∧
    sendCanComplete ExpandOneChanCap 0 false = true ∧
    sendCanComplete expandSetOperationChildChanCap 0 false = false := by decide

/-- C8: the reducer's outcome is independent of the order in which children
complete — any two operational runs over permuted send sequences agree and
equal the denotational reduction — and a direct expansion reads only tuples
live at the request's pinned revision, so the result is a deterministic
function of the request and that snapshot. -/
theorem reducer_independent_of_completion_order (op : SetOperationUserset_Operation)
    (start : Option ObjectAndRelation) (results : List ExpandResult)
    (sends₁ sends₂ : List (Nat × ExpandResult))
    (h₁ : sends₁.Perm results.enum) (h₂ : sends₂.Perm results.enum) :
    runSetOperation op start results.length sends₁ =
      runSetOperation op start results.length sends₂ ∧
    runSetOperation op start results.length sends₁ =
      some (expandSetOperationReduce op start results) ∧
    ∀ (ds₁ ds₂ : GraphDatastore) (dispatch : ExpandRequest → ExpandResult)
      (req : ExpandRequest) (sb : startInclusion),
      (∀ ns oid rel, ds₁.QueryTuples ns req.AtRevision oid rel =
                     ds₂.QueryTuples ns req.AtRevision oid rel) →
      expandDirect ds₁ dispatch req sb = expandDirect ds₂ dispatch req sb := by
  refine ⟨?_, runSetOperation_eq_reduce op start results sends₁ h₁, ?_⟩
  · rw [runSetOperation_eq_reduce op start results sends₁ h₁,
        runSetOperation_eq_reduce op start results sends₂ h₂]
  · intro ds₁ ds₂ dispatch req sb hds
    rw [expandDirect, expandDirect, hds]

/-- C8 witness: with child 1 completing before child 0, the reducer's result
equals the run where child 0 completes first. -/
theorem reducer_independent_witness :
    runSetOperation .UNION none 2
        [(1, { Tree := none, Err := none }), (0, { Tree := some (.LeafNode none []), Err := none })] =
      runSetOperation .UNION none 2
        [(0, { Tree := some (.LeafNode none []), Err := none }), (1, { Tree := none, Err := none })] :=
  (reducer_independent_of_completion_order .UNION none
    [{ Tree := some (.LeafNode none []), Err := none }, { Tree := none, Err := none }]
    [(1, { Tree := none, Err := none }), (0, { Tree := some (.LeafNode none []), Err := none })]
    [(0, { Tree := some (.LeafNode none []), Err := none }), (1, { Tree := none, Err := none })]
    (List.Perm.swap _ _ _) (List.Perm.refl _)).1

/-- C9: the `Expand` RPC hands the dispatcher a request whose expansion mode
is the constant `ShallowExpansion`, and the handler's outcome cannot depend
on what the dispatcher would do for any non-shallow request: Recursive mode
is unreachable through the external interface. -/
theorem expandRpc_always_shallow :
    (∀ (userset : ObjectAndRelation) (atRevision depth : Nat),
      (expandRpcDispatchRequest userset atRevision depth).ExpansionMode = .ShallowExpansion) ∧
    (∀ (validateErr : Option String) (checkNs : String → String → Option ACLError)
       (pickBestRevision : Option String → Except ACLError Nat)
       (calculateDepth : Except String Nat) (classifyGraphErr : ExpandError → ACLError)
       (d₁ d₂ : ExpandRequest → ExpandResult) (req : ApiExpandRequest),
      (∀ q, q.ExpansionMode = .ShallowExpansion → d₁ q = d₂ q) →
      aclExpand validateErr checkNs pickBestRevision calculateDepth classifyGraphErr d₁ req =
        aclExpand validateErr checkNs pickBestRevision calculateDepth classifyGraphErr d₂ req) := by
  refine ⟨fun _ _ _ => rfl, ?_⟩
  intro validateErr checkNs pickBestRevision calculateDepth classifyGraphErr d₁ d₂ req h
  rw [aclExpand.eq_def, aclExpand.eq_def]
  cases validateErr with
  | some msg => rfl
  | none =>
    dsimp only
    cases checkNs req.Userset.Namespace req.Userset.Relation with
    | some e => rfl
    | none =>
      dsimp only
      cases pickBestRevision req.AtRevision with
      | error e => rfl
      | ok atRevision =>
        dsimp only
        cases calculateDepth with
        | error msg => rfl
        | ok depth =>
          dsimp only
          rw [h (expandRpcDispatchRequest req.Userset atRevision depth) rfl]

/-- C9 witness: two dispatchers that differ only on Recursive-mode requests
give the `Expand` RPC identical outcomes. -/
theorem expandRpc_always_shallow_witness :
    aclExpand none (fun _ _ => none) (fun _ => .ok 3) (.ok 50) (fun _ => .other "x")
        (fun _ => { Tree := none, Err := none })
        { Userset := wONR, AtRevision := none } =
      aclExpand none (fun _ _ => none) (fun _ => .ok 3) (.ok 50) (fun _ => .other "x")
        (fun q => if q.ExpansionMode = .RecursiveExpansion
                  then { Tree := none, Err := some .RequestCanceled }
                  else { Tree := none, Err := none })
        { Userset := wONR, AtRevision := none } :=
  expandRpc_always_shallow.2 none (fun _ _ => none) (fun _ => .ok 3) (.ok 50)
    (fun _ => .other "x") (fun _ => { Tree := none, Err := none })
    (fun q => if q.ExpansionMode = .RecursiveExpansion
              then { Tree := none, Err := some .RequestCanceled }
              else { Tree := none, Err := none })
    { Userset := wONR, AtRevision := none }
    (fun q hq => by simp only []; rw [if_neg (by rw [hq]; intro hc; cases hc)])

/-- C10: `rewriteACLError` maps an `AlwaysFail` error to gRPC code
`OutOfRange` with an `"invalid zookie"` message — the very same mapping it
applies to an invalid-revision error — and not to `Internal`. -/
theorem alwaysFail_rewritten_as_invalid_zookie (m : String) :
    rewriteACLError (.alwaysFail m) =
      .status { code := .OutOfRange, message := "invalid zookie: " ++ m } ∧
    rewriteACLError (.alwaysFail m) = rewriteACLError (.invalidRevision m) ∧
    GrpcCode.OutOfRange ≠ GrpcCode.Internal := by
  exact ⟨rfl, rfl, by decide⟩

end SpiceDB
